import Mathlib

/-!
Verification development for the PrivateProfileRedirector repository.

The redirected Win32 private-profile handlers in
`Source/Redirector/RedirectedFunctions.cpp` are shallowly embedded here.
Characters are modelled as `Nat` codes (`0` is the null terminator), a
C string (the characters before its terminator) as `List Nat`, a caller
buffer as a `List Nat` whose length is the capacity in characters, and a
nullable pointer as an `Option`.  The embedding is width-generic, exactly
as the C++ templates are: both `char` and `wchar_t` instantiations share
this one model.
-/

set_option autoImplicit false

/-- A character string: the sequence of character codes before the null
terminator (no embedded terminator). -/
abbrev Str := List Nat

/-- The subset of `HRESULT` values produced by the marshaling helpers:
`S_OK`, `STRSAFE_E_INSUFFICIENT_BUFFER`, `STRSAFE_E_INVALID_PARAMETER`. -/
inductive HResult where
  | sOk
  | insufficientBuffer
  | invalidParameter
deriving DecidableEq, Repr

/-- Outcome of `StringCopyBuffer`: the destination buffer contents after the
call, the count reported through `copiedSize`, and the returned `HRESULT`. -/
structure CopyResult where
  dst : List Nat
  copied : Nat
  hr : HResult
deriving DecidableEq, Repr

/-- `StringCopyBuffer` from `RedirectedFunctions.cpp` (lines 58–130).
`dst` is the destination pointer (`none` = null) carrying the current buffer
contents, whose length is `dstSize`; `src` is the source pointer carrying the
`srcSize` readable characters.  The body mirrors the C++ exactly: null checks,
`memset` of the whole destination, `copySize = min(dstSize, srcSize)`, the
early-success on zero copy, `memcpy`, and the three-way termination branch. -/
def StringCopyBuffer (dst : Option (List Nat)) (src : Option (List Nat)) : CopyResult :=
  match dst, src with
  | some d, some s =>
    let dstSize := d.length
    let srcSize := s.length
    let zeroed : List Nat := List.replicate dstSize 0
    let copySize := min dstSize srcSize
    if copySize = 0 then
      { dst := zeroed, copied := 0, hr := .sOk }
    else
      let afterCopy := s.take copySize ++ List.replicate (dstSize - copySize) 0
      if dstSize > srcSize then
        { dst := afterCopy.set srcSize 0, copied := copySize, hr := .sOk }
      else if dstSize = srcSize ∧ afterCopy.getD (dstSize - 1) 0 = 0 then
        { dst := afterCopy, copied := copySize, hr := .sOk }
      else
        { dst := afterCopy.set (copySize - 1) 0, copied := copySize, hr := .insufficientBuffer }
  | _, _ => { dst := dst.getD [], copied := 0, hr := .invalidParameter }

/-- `StringLength` from `RedirectedFunctions.cpp` (lines 35–56), which
forwards to strsafe `StringCchLength`: succeeds with the string's length iff
the pointer is non-null and the terminator lies within the first `srcMaxSize`
characters (length strictly below `srcMaxSize`); otherwise fails with
`STRSAFE_E_INVALID_PARAMETER` and reports length `0`. -/
def StringLength (src : Option Str) (srcMaxSize : Nat) : HResult × Nat :=
  match src with
  | some s =>
    if s.length < srcMaxSize then (.sOk, s.length) else (.invalidParameter, 0)
  | none => (.invalidParameter, 0)

example : StringCopyBuffer (some [9, 9, 9, 9]) (some [7, 8]) =
    { dst := [7, 8, 0, 0], copied := 2, hr := .sOk } := by decide

example : StringCopyBuffer (some [9, 9]) (some [7, 8, 6]) =
    { dst := [7, 0], copied := 2, hr := .insufficientBuffer } := by decide

example : StringCopyBuffer (some [9, 9]) (some [7, 0]) =
    { dst := [7, 0], copied := 2, hr := .sOk } := by decide

example : StringCopyBuffer (some [9, 9]) (some [7, 8]) =
    { dst := [7, 0], copied := 2, hr := .insufficientBuffer } := by decide

example : StringCopyBuffer (some []) (some [7, 8]) =
    { dst := [], copied := 0, hr := .sOk } := by decide

example : StringCopyBuffer none (some [7]) =
    { dst := [], copied := 0, hr := .invalidParameter } := by decide

/-- Modelled from the spec: the INI document collaborator (`INIWrapper` /
`CSimpleIni`, not under `src/`), "sections → ordered key-value mapping".
Section and key lookup use canonical-text equality. -/
structure INIDocument where
  sections : List (Str × List (Str × Str))
deriving DecidableEq, Repr

/-- Modelled from the spec: `QueryValue` of the INI document collaborator —
the value stored for `(sec, key)`, if any. -/
def INIDocument.QueryValue (doc : INIDocument) (sec key : Str) : Option Str :=
  match doc.sections.find? (fun e => e.1 == sec) with
  | some e => (e.2.find? (fun kv => kv.1 == key)).map (fun kv => kv.2)
  | none => none

/-- Helper for `SetValue`: update `key` in one section's key-value list,
replacing an existing binding in place or appending a new one. -/
def setKeyInList (kvs : List (Str × Str)) (key value : Str) : List (Str × Str) :=
  if kvs.any (fun kv => kv.1 == key) then
    kvs.map (fun kv => if kv.1 == key then (kv.1, value) else kv)
  else
    kvs ++ [(key, value)]

/-- Modelled from the spec: `SetValue` of the INI document collaborator.
Returns the updated document and the `isSameData` flag reported back to
`WriteStringToMemoryFile`: when the new value is identical to the stored one
the document is left untouched and `isSameData` is `true`. -/
def INIDocument.SetValue (doc : INIDocument) (sec key value : Str) :
    INIDocument × Bool :=
  if doc.QueryValue sec key = some value then
    (doc, true)
  else if doc.sections.any (fun e => e.1 == sec) then
    ({ sections := doc.sections.map
        (fun e => if e.1 == sec then (e.1, setKeyInList e.2 key value) else e) },
     false)
  else
    ({ sections := doc.sections ++ [(sec, [(key, value)])] }, false)

/-- Modelled from the spec: `DeleteSection` of the INI document collaborator —
removes the whole section, reporting whether it existed. -/
def INIDocument.DeleteSection (doc : INIDocument) (sec : Str) :
    INIDocument × Bool :=
  if doc.sections.any (fun e => e.1 == sec) then
    ({ sections := doc.sections.filter (fun e => !(e.1 == sec)) }, true)
  else
    (doc, false)

/-- Modelled from the spec: `DeleteKey` of the INI document collaborator —
removes the single binding of `key` in `sec`, reporting whether it existed;
sibling keys are untouched. -/
def INIDocument.DeleteKey (doc : INIDocument) (sec key : Str) :
    INIDocument × Bool :=
  if (doc.QueryValue sec key).isSome then
    ({ sections := doc.sections.map
        (fun e => if e.1 == sec then (e.1, e.2.filter (fun kv => !(kv.1 == key))) else e) },
     true)
  else
    (doc, false)

/-- Modelled from the spec: `GetSectionNames` of the INI document
collaborator. -/
def INIDocument.GetSectionNames (doc : INIDocument) : List Str :=
  doc.sections.map (fun e => e.1)

/-- Modelled from the spec: `GetKeyNames` of the INI document collaborator —
the key names of one section, in order. -/
def INIDocument.GetKeyNames (doc : INIDocument) (sec : Str) : List Str :=
  match doc.sections.find? (fun e => e.1 == sec) with
  | some e => e.2.map (fun kv => kv.1)
  | none => []

/-- Encoding of a finished double-null-terminated list: every item followed
by its terminator, then the final extra terminator. -/
def encodeZZ (items : List Str) : Str :=
  (items.map (fun i => i ++ [0])).flatten ++ [0]

/-- Modelled from the spec: the worker of `CreateZSSTRZZ` (list building for
enumeration, `INIWrapper`, not under `src/`).  Appends item after item while
the accumulated text, the item, its terminator and the final terminator still
fit in `maxSize`; on the first item that would overflow it stops, closes the
list and reports truncation. -/
def buildZZ (items : List Str) (maxSize : Nat) (acc : Str) (count : Nat) :
    Str × Bool × Nat :=
  match items with
  | [] => (acc ++ [0], false, count)
  | i :: rest =>
    if acc.length + i.length + 2 ≤ maxSize then
      buildZZ rest maxSize (acc ++ (i ++ [0])) (count + 1)
    else
      (acc ++ [0], true, count)

/-- Modelled from the spec: `CreateZSSTRZZ` — builds the double-null list of
`items` under the capacity limit `maxSize`, returning the list text, the
truncated flag and the count of items actually included. -/
def CreateZSSTRZZ (items : List Str) (maxSize : Nat) : Str × Bool × Nat :=
  buildZZ items maxSize [] 0

example : CreateZSSTRZZ [[5, 6], [7]] 10 = ([5, 6, 0, 7, 0, 0], false, 2) := by decide

example : CreateZSSTRZZ [[5, 6], [7, 8]] 6 = ([5, 6, 0, 0], true, 1) := by decide

/-- Win32 last-error codes the handlers set: `ERROR_FILE_NOT_FOUND`,
`ERROR_INSUFFICIENT_BUFFER`, `ERROR_INVALID_PARAMETER`. -/
inductive Win32Error where
  | fileNotFound
  | insufficientBuffer
  | invalidParameter
deriving DecidableEq, Repr

/-- One cache entry: the parsed document plus its dirty and on-disk flags
(`ConfigObject` / `INIObject` of `PrivateProfileRedirector.h`). -/
structure ConfigObject where
  ini : INIDocument
  isChanged : Bool
  existOnDisk : Bool
deriving DecidableEq, Repr

/-- Modelled from the spec: `ConfigObject::OnWrite` (declared in
`PrivateProfileRedirector.h`, body not under `src/`).  Marks the entry dirty;
when the save-on-write policy is active it triggers an immediate save, which
on success clears the dirty flag and makes the file exist on disk.  Returns
the updated entry and whether a save was triggered. -/
def ConfigObject.OnWrite (saveOnWrite : Bool) (o : ConfigObject) :
    ConfigObject × Bool :=
  if saveOnWrite then
    ({ o with isChanged := false, existOnDisk := true }, true)
  else
    ({ o with isChanged := true }, false)

/-- Result of a `GetPrivateProfileString` / `GetPrivateProfileSection`
handler: the returned length, the caller buffer afterwards, and the
last-error value set on failure. -/
structure GetStringResult where
  ret : Nat
  buffer : Option (List Nat)
  lastError : Option Win32Error
deriving DecidableEq, Repr

/-- `GetStringT` from `RedirectedFunctions.cpp` (lines 148–280).  The caller
buffer is `buf` (null when `none`), whose length is the capacity `nSize`; the
cache entry's document for the resolved path is `ini`.  Mirrors the C++
branch for branch: path and buffer validation, section enumeration when the
section argument is null, key enumeration when the key argument is null,
found-value marshaling, default-value marshaling through `StringLength`
bounded by `nSize`, and the empty-string fallback. -/
def GetStringT (appName keyName defaultValue : Option Str)
    (buf : Option (List Nat)) (fileName : Option Str) (ini : INIDocument) :
    GetStringResult :=
  if fileName.isNone then
    { ret := 0, buffer := buf, lastError := some .fileNotFound }
  else
    match buf with
    | none => { ret := 0, buffer := none, lastError := some .insufficientBuffer }
    | some b =>
      let nSize := b.length
      if nSize < 2 then
        { ret := 0, buffer := some b, lastError := some .insufficientBuffer }
      else
        match appName with
        | none =>
          let z := CreateZSSTRZZ ini.GetSectionNames nSize
          let cr := StringCopyBuffer (some b) (some z.1)
          let result :=
            if cr.hr = .insufficientBuffer then nSize - 2
            else if z.2.1 then nSize - 2
            else z.1.length - 1
          { ret := result, buffer := some cr.dst, lastError := none }
        | some a =>
          match keyName with
          | none =>
            let z := CreateZSSTRZZ (ini.GetKeyNames a) nSize
            let cr := StringCopyBuffer (some b) (some z.1)
            let result :=
              if cr.hr = .insufficientBuffer then nSize - 2
              else if z.2.1 then nSize - 2
              else z.1.length - 1
            { ret := result, buffer := some cr.dst, lastError := none }
          | some k =>
            match ini.QueryValue a k with
            | some v =>
              let cr := StringCopyBuffer (some b) (some v)
              let result := if cr.hr = .insufficientBuffer then nSize - 1 else v.length
              { ret := result, buffer := some cr.dst, lastError := none }
            | none =>
              match defaultValue with
              | some d =>
                let len := (StringLength (some d) nSize).2
                let cr := StringCopyBuffer (some b) (some (d.take len))
                let result := if cr.hr = .insufficientBuffer then nSize - 1 else len
                { ret := result, buffer := some cr.dst, lastError := none }
              | none =>
                let cr := StringCopyBuffer (some b) (some [0])
                { ret := 0, buffer := some cr.dst, lastError := none }

/-- Result of the `GetPrivateProfileInt` handler. -/
structure GetIntResult where
  ret : Int
  lastError : Option Win32Error
deriving DecidableEq, Repr

/-- Modelled from the spec: the integer parse used by `GetIntT`
(`String::ToInteger`, external collaborator) — an optional sign followed by
at least one decimal digit; anything else fails. -/
def parseIntValue (s : Str) : Option Int :=
  let digits : Str → Option Nat := fun cs =>
    if cs ≠ [] ∧ cs.all (fun c => 48 ≤ c ∧ c ≤ 57) then
      some (cs.foldl (fun acc c => acc * 10 + (c - 48)) 0)
    else
      none
  match s with
  | 45 :: rest => (digits rest).map (fun n => -(n : Int))
  | _ => (digits s).map (fun n => (n : Int))

/-- `GetIntT` from `RedirectedFunctions.cpp` (lines 282–321): path and
section/key validation, then value lookup and integer parse, falling back to
the caller's default on a missing key or unparsable text. -/
def GetIntT (appName keyName : Option Str) (defaultValue : Int)
    (fileName : Option Str) (ini : INIDocument) : GetIntResult :=
  if fileName.isNone then
    { ret := defaultValue, lastError := some .fileNotFound }
  else if appName.isNone ∨ keyName.isNone then
    { ret := defaultValue, lastError := some .invalidParameter }
  else
    match ini.QueryValue (appName.getD []) (keyName.getD []) with
    | some v =>
      match parseIntValue v with
      | some n => { ret := n, lastError := none }
      | none => { ret := defaultValue, lastError := none }
    | none => { ret := defaultValue, lastError := none }

/-- `GetSectionT` from `RedirectedFunctions.cpp` (lines 329–398): path,
section and buffer validation, then the `key=value` double-null list built by
`CreateZSSTRZZ` over the section's key names, re-querying each key's value
and discarding keys whose lookup fails (`CallbackCommand::Discard`), with the
same truncation post-processing as the enumeration branches of `GetStringT`.
Character code `61` is `=`. -/
def GetSectionT (appName : Option Str) (buf : Option (List Nat))
    (fileName : Option Str) (ini : INIDocument) : GetStringResult :=
  if fileName.isNone then
    { ret := 0, buffer := buf, lastError := some .fileNotFound }
  else if appName.isNone then
    { ret := 0, buffer := buf, lastError := some .invalidParameter }
  else
    match buf with
    | none => { ret := 0, buffer := none, lastError := some .insufficientBuffer }
    | some b =>
      let nSize := b.length
      if nSize < 2 then
        { ret := 0, buffer := some b, lastError := some .insufficientBuffer }
      else
        let a := appName.getD []
        let items := (ini.GetKeyNames a).filterMap
          (fun k => (ini.QueryValue a k).map (fun v => k ++ 61 :: v))
        let z := CreateZSSTRZZ items nSize
        let cr := StringCopyBuffer (some b) (some z.1)
        let result :=
          if cr.hr = .insufficientBuffer then nSize - 2
          else if z.2.1 then nSize - 2
          else z.1.length - 1
        { ret := result, buffer := some cr.dst, lastError := none }

/-- Outcome of the in-memory part of the write handler. -/
structure WriteOutcome where
  obj : ConfigObject
  success : Bool
  saveTriggered : Bool
  lastError : Option Win32Error
deriving DecidableEq, Repr

/-- `WriteStringToMemoryFile`, the lambda inside `WriteStringT`
(`RedirectedFunctions.cpp` lines 409–473): path and section validation, then
the nullability dispatch — null key deletes the section, null value deletes
the key, otherwise the value is set and `OnWrite` is skipped exactly when the
document reported `isSameData`. -/
def WriteStringToMemoryFile (saveOnWrite : Bool)
    (appName keyName lpString fileName : Option Str) (o : ConfigObject) :
    WriteOutcome :=
  if fileName.isNone then
    { obj := o, success := false, saveTriggered := false, lastError := some .fileNotFound }
  else
    match appName with
    | none =>
      { obj := o, success := false, saveTriggered := false, lastError := some .invalidParameter }
    | some a =>
      match keyName with
      | none =>
        let r := o.ini.DeleteSection a
        if r.2 then
          let w := ConfigObject.OnWrite saveOnWrite { o with ini := r.1 }
          { obj := w.1, success := true, saveTriggered := w.2, lastError := none }
        else
          { obj := { o with ini := r.1 }, success := false, saveTriggered := false, lastError := none }
      | some k =>
        match lpString with
        | none =>
          let r := o.ini.DeleteKey a k
          if r.2 then
            let w := ConfigObject.OnWrite saveOnWrite { o with ini := r.1 }
            { obj := w.1, success := true, saveTriggered := w.2, lastError := none }
          else
            { obj := { o with ini := r.1 }, success := false, saveTriggered := false, lastError := none }
        | some v =>
          let r := o.ini.SetValue a k v
          if r.2 then
            { obj := { o with ini := r.1 }, success := true, saveTriggered := false, lastError := none }
          else
            let w := ConfigObject.OnWrite saveOnWrite { o with ini := r.1 }
            { obj := w.1, success := true, saveTriggered := w.2, lastError := none }

/-- The global policy options consulted by the write handler
(`RedirectorOption::SaveOnWrite`, `RedirectorOption::NativeWrite`). -/
structure RedirectorOptions where
  saveOnWrite : Bool
  nativeWrite : Bool
deriving DecidableEq, Repr

/-- Result of the full write handler: the cache entry afterwards, the BOOL
returned to the caller, whether a save was triggered, the arguments of the
native passthrough call when one was made, and the last-error value. -/
structure WriteStringResult where
  obj : ConfigObject
  result : Bool
  saveTriggered : Bool
  nativeCalled : Option (Option Str × Option Str × Option Str × Option Str)
  lastError : Option Win32Error

/-- `WriteStringT` from `RedirectedFunctions.cpp` (lines 400–490): performs
the in-memory update, then, when the `NativeWrite` option is enabled, invokes
the original un-redirected API (modelled by the abstract `native` outcome
function) with the same four arguments and returns its outcome; otherwise it
returns the in-memory outcome. -/
def WriteStringT (opts : RedirectorOptions)
    (native : Option Str → Option Str → Option Str → Option Str → Bool)
    (appName keyName lpString fileName : Option Str) (o : ConfigObject) :
    WriteStringResult :=
  let m := WriteStringToMemoryFile opts.saveOnWrite appName keyName lpString fileName o
  if opts.nativeWrite then
    { obj := m.obj, result := native appName keyName lpString fileName,
      saveTriggered := m.saveTriggered,
      nativeCalled := some (appName, keyName, lpString, fileName),
      lastError := m.lastError }
  else
    { obj := m.obj, result := m.success, saveTriggered := m.saveTriggered,
      nativeCalled := none, lastError := m.lastError }

/-! Helper lemmas about list surgery used by the marshaling proofs. -/

theorem set_append_length (s t : List Nat) (x : Nat) :
    (s ++ t).set s.length x = s ++ t.set 0 x := by
  induction s with
  | nil => simp
  | cons a s ih => simp [List.set, ih]

theorem replicate_set_zero (m : Nat) :
    (List.replicate m (0 : Nat)).set 0 0 = List.replicate m 0 := by
  cases m with
  | zero => rfl
  | succ n => simp [List.replicate_succ, List.set]

theorem take_set_last (s : List Nat) (n : Nat) (h0 : 0 < n) (h : n ≤ s.length) :
    (s.take n).set (n - 1) 0 = s.take (n - 1) ++ [0] := by
  obtain ⟨m, rfl⟩ : ∃ m, n = m + 1 := ⟨n - 1, (Nat.succ_pred_eq_of_pos h0).symm⟩
  have hm : m < s.length := h
  have htake : s.take (m + 1) = s.take m ++ (s[m]?).toList := List.take_succ
  have hget : s[m]? = some (s.get ⟨m, hm⟩) := by
    simp [List.getElem?_eq_getElem hm]
  have hlen : (s.take m).length = m := List.length_take_of_le (Nat.le_of_lt hm)
  simp only [htake, hget, Option.toList_some, Nat.add_sub_cancel]
  have hset := set_append_length (s.take m) [s.get ⟨m, hm⟩] 0
  rw [hlen] at hset
  rw [hset]
  simp [List.set]


/-! Branch characterizations of `StringCopyBuffer`, one per regime of the
copy contract.  These are the workhorses for the handler-level proofs. -/

theorem StringCopyBuffer_zero (d s : List Nat) (h : min d.length s.length = 0) :
    StringCopyBuffer (some d) (some s) =
      { dst := List.replicate d.length 0, copied := 0, hr := .sOk } := by
  unfold StringCopyBuffer
  simp only
  rw [if_pos h]

theorem StringCopyBuffer_room (d s : List Nat)
    (h1 : 0 < s.length) (h2 : s.length < d.length) :
    StringCopyBuffer (some d) (some s) =
      { dst := s ++ List.replicate (d.length - s.length) 0,
        copied := s.length, hr := .sOk } := by
  have hmin : min d.length s.length = s.length := Nat.min_eq_right (Nat.le_of_lt h2)
  unfold StringCopyBuffer
  simp only
  rw [if_neg (by omega : ¬ min d.length s.length = 0),
      if_pos (by omega : d.length > s.length), hmin, List.take_length s]
  have hset := set_append_length s (List.replicate (d.length - s.length) 0) 0
  rw [hset]
  have hm : d.length - s.length = (d.length - s.length - 1) + 1 := by omega
  rw [hm, List.replicate_succ]
  simp [List.set]

theorem StringCopyBuffer_exactFit (d s : List Nat)
    (h1 : 0 < s.length) (h2 : d.length = s.length)
    (h3 : s.getD (s.length - 1) 0 = 0) :
    StringCopyBuffer (some d) (some s) =
      { dst := s, copied := s.length, hr := .sOk } := by
  have hmin : min d.length s.length = s.length := by omega
  have hz : d.length - s.length = 0 := by omega
  unfold StringCopyBuffer
  simp only
  rw [if_neg (by omega : ¬ min d.length s.length = 0),
      if_neg (by omega : ¬ d.length > s.length), if_pos]
  · rw [hmin, List.take_length s, hz, List.replicate_zero, List.append_nil]
  · refine ⟨h2, ?_⟩
    rw [hmin, List.take_length s, hz, List.replicate_zero, List.append_nil, h2]
    exact h3

theorem StringCopyBuffer_truncate (d s : List Nat) (h1 : 0 < d.length)
    (hcase : d.length < s.length ∨ (d.length = s.length ∧ s.getD (s.length - 1) 0 ≠ 0)) :
    StringCopyBuffer (some d) (some s) =
      { dst := s.take (d.length - 1) ++ [0],
        copied := d.length, hr := .insufficientBuffer } := by
  have hle : d.length ≤ s.length := by
    rcases hcase with h | h
    · exact Nat.le_of_lt h
    · omega
  have hmin : min d.length s.length = d.length := Nat.min_eq_left hle
  have hsub : d.length - d.length = 0 := by omega
  unfold StringCopyBuffer
  simp only
  rw [if_neg (by omega : ¬ min d.length s.length = 0),
      if_neg (by omega : ¬ d.length > s.length), if_neg, hmin, hsub,
      List.replicate_zero, List.append_nil,
      take_set_last s d.length h1 hle]
  rintro ⟨hds, hlast⟩
  rw [hmin, hsub, List.replicate_zero, List.append_nil] at hlast
  rcases hcase with h | h
  · omega
  · apply h.2
    rw [hds, List.take_length s] at hlast
    exact hlast

theorem StringCopyBuffer_cases (d s : List Nat) :
    min d.length s.length = 0 ∨
    (0 < s.length ∧ s.length < d.length) ∨
    (0 < s.length ∧ d.length = s.length ∧ s.getD (s.length - 1) 0 = 0) ∨
    (0 < d.length ∧
      (d.length < s.length ∨ (d.length = s.length ∧ s.getD (s.length - 1) 0 ≠ 0))) := by
  by_cases h0 : min d.length s.length = 0
  · exact Or.inl h0
  · by_cases hlt : s.length < d.length
    · exact Or.inr (Or.inl ⟨by omega, hlt⟩)
    · by_cases heq : d.length = s.length
      · by_cases hz : s.getD (s.length - 1) 0 = 0
        · exact Or.inr (Or.inr (Or.inl ⟨by omega, heq, hz⟩))
        · exact Or.inr (Or.inr (Or.inr ⟨by omega, Or.inr ⟨heq, hz⟩⟩))
      · exact Or.inr (Or.inr (Or.inr ⟨by omega, Or.inl (by omega)⟩))

theorem StringCopyBuffer_dst_length (d s : List Nat) :
    (StringCopyBuffer (some d) (some s)).dst.length = d.length := by
  rcases StringCopyBuffer_cases d s with h | ⟨h1, h2⟩ | ⟨h1, h2, h3⟩ | ⟨h1, h2⟩
  · rw [StringCopyBuffer_zero d s h]; simp
  · rw [StringCopyBuffer_room d s h1 h2]; simp; omega
  · rw [StringCopyBuffer_exactFit d s h1 h2 h3]; simp; omega
  · have hle : d.length ≤ s.length := by
      rcases h2 with h | h
      · omega
      · omega
    rw [StringCopyBuffer_truncate d s h1 h2]
    simp
    omega

theorem StringCopyBuffer_copied_count (d s : List Nat) :
    (StringCopyBuffer (some d) (some s)).copied = min d.length s.length := by
  rcases StringCopyBuffer_cases d s with h | ⟨h1, h2⟩ | ⟨h1, h2, h3⟩ | ⟨h1, h2⟩
  · rw [StringCopyBuffer_zero d s h]; simp [h]
  · rw [StringCopyBuffer_room d s h1 h2]; simp; omega
  · rw [StringCopyBuffer_exactFit d s h1 h2 h3]; simp; omega
  · have hle : d.length ≤ s.length := by
      rcases h2 with h | h
      · omega
      · omega
    rw [StringCopyBuffer_truncate d s h1 h2]
    simp
    omega

/-- C1: `StringCopyBuffer` (both character widths share this one model) fails
with `InvalidArgument` when the destination or source pointer is null;
otherwise it zero-fills the whole destination capacity, copies
`n = min(destinationCapacity, sourceLength)` characters (succeeding with
copied count 0 when `n = 0`), and follows the exact three-way branch:
capacity above the source length null-terminates right after the copied
source and succeeds, an exact fit whose last copied character is already
zero succeeds, and every other case overwrites the last writable character
with the terminator and fails with `InsufficientBuffer`; the output never
exceeds the destination capacity. -/
theorem StringCopyBuffer_spec (d s : List Nat) :
    (StringCopyBuffer none (some s)).hr = HResult.invalidParameter ∧
    (StringCopyBuffer (some d) none).hr = HResult.invalidParameter ∧
    (StringCopyBuffer none none).hr = HResult.invalidParameter ∧
    (StringCopyBuffer (some d) (some s)).dst.length = d.length ∧
    (StringCopyBuffer (some d) (some s)).copied = min d.length s.length ∧
    (min d.length s.length = 0 →
      StringCopyBuffer (some d) (some s) =
        { dst := List.replicate d.length 0, copied := 0, hr := .sOk }) ∧
    (0 < s.length → s.length < d.length →
      StringCopyBuffer (some d) (some s) =
        { dst := s ++ List.replicate (d.length - s.length) 0,
          copied := s.length, hr := .sOk }) ∧
    (0 < s.length → d.length = s.length → s.getD (s.length - 1) 0 = 0 →
      StringCopyBuffer (some d) (some s) =
        { dst := s, copied := s.length, hr := .sOk }) ∧
    (0 < d.length →
      (d.length < s.length ∨ (d.length = s.length ∧ s.getD (s.length - 1) 0 ≠ 0)) →
      StringCopyBuffer (some d) (some s) =
        { dst := s.take (d.length - 1) ++ [0],
          copied := d.length, hr := .insufficientBuffer }) :=
  ⟨rfl, rfl, rfl, StringCopyBuffer_dst_length d s, StringCopyBuffer_copied_count d s,
   StringCopyBuffer_zero d s,
   StringCopyBuffer_room d s,
   StringCopyBuffer_exactFit d s,
   StringCopyBuffer_truncate d s⟩

/-- Witness for C1: the room-to-spare branch evaluated on a concrete buffer
of capacity 3 and a source of length 2. -/
theorem StringCopyBuffer_spec_witness :
    StringCopyBuffer (some [9, 9, 9]) (some [7, 8]) =
      { dst := [7, 8] ++ List.replicate 1 0, copied := 2, hr := .sOk } :=
  (StringCopyBuffer_spec [9, 9, 9] [7, 8]).2.2.2.2.2.2.1 (by decide) (by decide)

theorem getD_last_ne_zero (v : List Nat) (hne : v ≠ []) (hn : (0 : Nat) ∉ v) :
    v.getD (v.length - 1) 0 ≠ 0 := by
  intro hz
  have hlt : v.length - 1 < v.length := by
    have := List.length_pos.mpr hne
    omega
  rw [List.getD_eq_getElem v 0 hlt] at hz
  exact hn (hz ▸ List.getElem_mem hlt)

/-- C2: a `GetString` read of an existing value with a valid path, non-null
buffer and capacity `nSize ≥ 2`: when the stored value's length `L` is below
`nSize` the call returns `L` and the buffer holds the full value
null-terminated; when `L ≥ nSize` it returns `nSize - 1` and the buffer's
first `nSize - 1` characters are the value's prefix, terminated at index
`nSize - 1`.  (`0 ∉ v` states that the stored value, being text, has no
embedded terminator.) -/
theorem GetStringT_read_existing (a k v f : Str) (dv : Option Str)
    (b : List Nat) (ini : INIDocument)
    (hfound : ini.QueryValue a k = some v) (hnz : (0 : Nat) ∉ v)
    (hcap : 2 ≤ b.length) :
    (v.length < b.length →
      GetStringT (some a) (some k) dv (some b) (some f) ini =
        { ret := v.length,
          buffer := some (v ++ List.replicate (b.length - v.length) 0),
          lastError := none }) ∧
    (b.length ≤ v.length →
      GetStringT (some a) (some k) dv (some b) (some f) ini =
        { ret := b.length - 1,
          buffer := some (v.take (b.length - 1) ++ [0]),
          lastError := none }) := by
  have hnot2 : ¬ b.length < 2 := by omega
  constructor
  · intro hlt
    simp only [GetStringT, hfound, Option.isNone_some]
    by_cases hv0 : v.length = 0
    · have hmin : min b.length v.length = 0 := by omega
      have hv : v = [] := List.length_eq_zero.mp hv0
      rw [StringCopyBuffer_zero b v hmin]
      simp [hnot2, hv]
    · rw [StringCopyBuffer_room b v (by omega) hlt]
      simp [hnot2]
  · intro hge
    have hvne : v ≠ [] := by
      intro h
      rw [h] at hge
      simp only [List.length_nil] at hge
      omega
    have hlast := getD_last_ne_zero v hvne hnz
    simp only [GetStringT, hfound, Option.isNone_some]
    by_cases heq : b.length = v.length
    · rw [StringCopyBuffer_truncate b v (by omega) (Or.inr ⟨heq, hlast⟩)]
      simp [hnot2]
    · rw [StringCopyBuffer_truncate b v (by omega) (Or.inl (by omega))]
      simp [hnot2]

/-- Witness for C2: reading the stored value `[7, 8, 9]` through a buffer of
capacity 2 truncates to one character plus the terminator and returns 1. -/
theorem GetStringT_read_existing_witness :
    GetStringT (some [1]) (some [2]) none (some [9, 9]) (some [3])
        { sections := [([1], [([2], [7, 8, 9])])] } =
      { ret := 1, buffer := some ([7, 8, 9].take 1 ++ [0]), lastError := none } :=
  (GetStringT_read_existing [1] [2] [7, 8, 9] [3] none [9, 9]
      { sections := [([1], [([2], [7, 8, 9])])] }
      (by decide) (by decide) (by decide)).2 (by decide)

/-- C6: a `GetString` call whose `(section, key)` is not found marshals the
caller-supplied default under the §4.1 copy rules and returns its measured
length (`StringLength` bounded by `nSize`, so a fitting default of length `L`
comes back in full with return value `L`), and with no default marshals the
empty string and returns 0 with a fully zeroed buffer. -/
theorem GetStringT_not_found_default (a k f : Str) (b : List Nat)
    (ini : INIDocument) (hnf : ini.QueryValue a k = none) (hcap : 2 ≤ b.length) :
    (∀ d : Str, d.length < b.length →
      GetStringT (some a) (some k) (some d) (some b) (some f) ini =
        { ret := d.length,
          buffer := some (d ++ List.replicate (b.length - d.length) 0),
          lastError := none }) ∧
    GetStringT (some a) (some k) none (some b) (some f) ini =
      { ret := 0, buffer := some (List.replicate b.length 0),
        lastError := none } := by
  have hnot2 : ¬ b.length < 2 := by omega
  constructor
  · intro d hlt
    simp only [GetStringT, hnf, Option.isNone_some, StringLength]
    rw [if_pos hlt]
    simp only [List.take_length d]
    by_cases hd0 : d.length = 0
    · have hmin : min b.length d.length = 0 := by omega
      have hd : d = [] := List.length_eq_zero.mp hd0
      rw [StringCopyBuffer_zero b d hmin]
      simp [hnot2, hd]
    · rw [StringCopyBuffer_room b d (by omega) hlt]
      simp [hnot2]
  · simp only [GetStringT, hnf, Option.isNone_some]
    rw [StringCopyBuffer_room b [0] (by decide) (by simpa using hcap)]
    have hrep : (0 : Nat) :: List.replicate (b.length - 1) 0 = List.replicate b.length 0 := by
      have hb : b.length = (b.length - 1) + 1 := by omega
      rw [hb, List.replicate_succ]
      simp
    simp only [List.singleton_append, List.length_singleton, hrep]
    simp [hnot2]

/-- Witness for C6: with nothing stored, the default `[5]` is returned whole
through a capacity-3 buffer. -/
theorem GetStringT_not_found_default_witness :
    GetStringT (some [1]) (some [2]) (some [5]) (some [9, 9, 9]) (some [3])
        { sections := [] } =
      { ret := 1, buffer := some ([5] ++ List.replicate 2 0), lastError := none } :=
  (GetStringT_not_found_default [1] [2] [3] [9, 9, 9] { sections := [] }
      (by decide) (by decide)).1 [5] (by decide)

/-- C10: when `(section, key)` is not found and the caller's default has
length at least the capacity `nSize`, the default's length is measured by
`StringLength` with maximum `nSize` characters, the measurement fails
yielding 0, and the call returns 0 with a fully zeroed buffer — the default
is never delivered truncated, unlike a stored value of the same length,
which comes back truncated to `nSize - 1` characters. -/
theorem GetStringT_default_never_truncated (a k f d : Str) (b : List Nat)
    (ini : INIDocument) (hnf : ini.QueryValue a k = none)
    (hcap : 2 ≤ b.length) (hover : b.length ≤ d.length) :
    StringLength (some d) b.length = (.invalidParameter, 0) ∧
    GetStringT (some a) (some k) (some d) (some b) (some f) ini =
      { ret := 0, buffer := some (List.replicate b.length 0),
        lastError := none } ∧
    (∀ ini2 : INIDocument, ini2.QueryValue a k = some d → (0 : Nat) ∉ d →
      (GetStringT (some a) (some k) (some d) (some b) (some f) ini2).ret =
        b.length - 1) := by
  have hnot2 : ¬ b.length < 2 := by omega
  have hlen : StringLength (some d) b.length = (.invalidParameter, 0) := by
    simp only [StringLength]
    rw [if_neg (by omega)]
  refine ⟨hlen, ?_, ?_⟩
  · simp only [GetStringT, hnf, Option.isNone_some, hlen]
    have htake : d.take 0 = [] := List.take_zero d
    simp only [htake]
    rw [StringCopyBuffer_zero b [] (by simp)]
    simp [hnot2]
  · intro ini2 hfound hnz
    have hdne : d ≠ [] := by
      intro h
      rw [h] at hover
      simp only [List.length_nil] at hover
      omega
    have hlast := getD_last_ne_zero d hdne hnz
    simp only [GetStringT, hfound, Option.isNone_some]
    by_cases heq : b.length = d.length
    · rw [StringCopyBuffer_truncate b d (by omega) (Or.inr ⟨heq, hlast⟩)]
      simp [hnot2]
    · rw [StringCopyBuffer_truncate b d (by omega) (Or.inl (by omega))]
      simp [hnot2]

/-- Witness for C10: a three-character default through a capacity-2 buffer
yields 0 and a zeroed buffer, while the same text stored as a value yields
capacity minus one. -/
theorem GetStringT_default_never_truncated_witness :
    GetStringT (some [1]) (some [2]) (some [7, 8, 9]) (some [9, 9]) (some [3])
        { sections := [] } =
      { ret := 0, buffer := some (List.replicate 2 0), lastError := none } :=
  (GetStringT_default_never_truncated [1] [2] [3] [7, 8, 9] [9, 9]
      { sections := [] } (by decide) (by decide) (by decide)).2.1

/-- C9: every handler validates its arguments before touching the cache — a
null file path fails with the `FileNotFound`-equivalent error returning 0,
the caller's default integer, or `false` respectively, and the
buffer-returning reads fail with the `InsufficientBuffer`-equivalent error
and return 0 when the destination pointer is null or the capacity is below
2 characters. -/
theorem handlers_validate_arguments (appName keyName dv v : Option Str)
    (a f : Str) (b : List Nat) (dflt : Int) (sOW : Bool)
    (native : Option Str → Option Str → Option Str → Option Str → Bool)
    (buf : Option (List Nat)) (ini : INIDocument) (o : ConfigObject) :
    GetStringT appName keyName dv buf none ini =
      { ret := 0, buffer := buf, lastError := some .fileNotFound } ∧
    GetIntT appName keyName dflt none ini =
      { ret := dflt, lastError := some .fileNotFound } ∧
    GetSectionT appName buf none ini =
      { ret := 0, buffer := buf, lastError := some .fileNotFound } ∧
    WriteStringToMemoryFile sOW appName keyName v none o =
      { obj := o, success := false, saveTriggered := false,
        lastError := some .fileNotFound } ∧
    (WriteStringT { saveOnWrite := sOW, nativeWrite := false } native
        appName keyName v none o).result = false ∧
    GetStringT appName keyName dv none (some f) ini =
      { ret := 0, buffer := none, lastError := some .insufficientBuffer } ∧
    (b.length < 2 →
      GetStringT appName keyName dv (some b) (some f) ini =
        { ret := 0, buffer := some b, lastError := some .insufficientBuffer }) ∧
    GetSectionT (some a) none (some f) ini =
      { ret := 0, buffer := none, lastError := some .insufficientBuffer } ∧
    (b.length < 2 →
      GetSectionT (some a) (some b) (some f) ini =
        { ret := 0, buffer := some b, lastError := some .insufficientBuffer }) := by
  refine ⟨rfl, rfl, rfl, rfl, ?_, rfl, ?_, rfl, ?_⟩
  · simp [WriteStringT, WriteStringToMemoryFile]
  · intro hb
    simp only [GetStringT, Option.isNone_some]
    rw [if_pos hb]
    simp
  · intro hb
    simp only [GetSectionT, Option.isNone_some]
    rw [if_pos hb]
    simp

/-- Witness for C9: the capacity-1 buffer case of `GetStringT` at concrete
arguments. -/
theorem handlers_validate_arguments_witness :
    GetStringT (some [1]) (some [2]) none (some [9]) (some [3])
        { sections := [] } =
      { ret := 0, buffer := some [9], lastError := some .insufficientBuffer } :=
  (handlers_validate_arguments (some [1]) (some [2]) none none [1] [3] [9] 0
      false (fun _ _ _ _ => false) (some [9]) { sections := [] }
      { ini := { sections := [] }, isChanged := false, existOnDisk := false
      }).2.2.2.2.2.2.1 (by decide)

/-! Helper lemmas about lookup after the document mutations. -/

theorem find?_map_fst_preserved (l : List (Str × List (Str × Str)))
    (g : Str × List (Str × Str) → Str × List (Str × Str))
    (hg : ∀ x, (g x).1 = x.1) (a : Str) :
    (l.map g).find? (fun e => e.1 == a) =
      (l.find? (fun e => e.1 == a)).map g := by
  induction l with
  | nil => rfl
  | cons x xs ih =>
    by_cases hx : x.1 = a
    · simp [List.find?_cons, hg, hx]
    · simp [List.find?_cons, hg, hx, ih]

theorem find?_filter_other (l : List (Str × Str)) (hk hk' : Str) (hne : hk' ≠ hk) :
    (l.filter (fun kv => !(kv.1 == hk))).find? (fun kv => kv.1 == hk') =
      l.find? (fun kv => kv.1 == hk') := by
  induction l with
  | nil => rfl
  | cons x xs ih =>
    by_cases hx : x.1 = hk'
    · have hxk : ¬ x.1 = hk := by rw [hx]; exact hne
      have hq : (x.1 == hk) = false := by simpa using hxk
      have hp : (x.1 == hk') = true := by simpa using hx
      simp [List.filter_cons, List.find?_cons, hq, hp]
    · have hp : (x.1 == hk') = false := by simpa using hx
      by_cases hxk : x.1 = hk
      · have hq : (x.1 == hk) = true := by simpa using hxk
        simp [List.filter_cons, List.find?_cons, hq, hp, ih]
      · have hq : (x.1 == hk) = false := by simpa using hxk
        simp [List.filter_cons, List.find?_cons, hq, hp, ih]

theorem find?_filter_self (l : List (Str × Str)) (hk : Str) :
    (l.filter (fun kv => !(kv.1 == hk))).find? (fun kv => kv.1 == hk) = none := by
  rw [List.find?_eq_none]
  intro x hx
  have := List.of_mem_filter hx
  simp at this
  simp [this]

theorem find?_setKeyInList (kvs : List (Str × Str)) (k v : Str) :
    ((setKeyInList kvs k v).find? (fun kv => kv.1 == k)).map (fun kv => kv.2) =
      some v := by
  unfold setKeyInList
  by_cases hany : kvs.any (fun kv => kv.1 == k)
  · rw [if_pos hany]
    induction kvs with
    | nil => simp at hany
    | cons x xs ih =>
      by_cases hx : x.1 = k
      · have hcond : (x.1 == k) = true := by simpa using hx
        simp only [List.map_cons]
        rw [if_pos hcond]
        have hfind : List.find? (fun kv => kv.1 == k)
            ((x.1, v) ::
              List.map (fun kv => if (kv.1 == k) = true then (kv.1, v) else kv) xs) =
            some (x.1, v) :=
          List.find?_cons_of_pos _ (by simpa using hx)
        rw [hfind]
        simp
      · have hcond : (x.1 == k) = false := by simpa using hx
        have hxs : xs.any (fun kv => kv.1 == k) := by
          simp only [List.any_cons, hcond, Bool.false_or] at hany
          exact hany
        simp only [List.map_cons]
        rw [if_neg (by simp [hcond])]
        have hfind : List.find? (fun kv => kv.1 == k)
            (x ::
              List.map (fun kv => if (kv.1 == k) = true then (kv.1, v) else kv) xs) =
            List.find? (fun kv => kv.1 == k)
              (List.map (fun kv => if (kv.1 == k) = true then (kv.1, v) else kv) xs) :=
          List.find?_cons_of_neg _ (by simp [hcond])
        rw [hfind]
        exact ih hxs
  · rw [if_neg hany]
    have hnone : kvs.find? (fun kv => kv.1 == k) = none := by
      rw [List.find?_eq_none]
      intro x hx
      simp only [List.any_eq_true] at hany
      push_neg at hany
      simpa using hany x hx
    rw [List.find?_append, hnone]
    simp

theorem QueryValue_SetValue_self (doc : INIDocument) (a k v : Str) :
    ((doc.SetValue a k v).1).QueryValue a k = some v := by
  unfold INIDocument.SetValue
  by_cases hsame : doc.QueryValue a k = some v
  · rw [if_pos hsame]
    exact hsame
  · rw [if_neg hsame]
    by_cases hany : doc.sections.any (fun e => e.1 == a)
    · rw [if_pos hany]
      unfold INIDocument.QueryValue
      simp only
      rw [find?_map_fst_preserved _ _ (fun x => by by_cases hx : x.1 = a <;> simp [hx]) a]
      obtain ⟨e0, he0mem, he0p⟩ := List.any_eq_true.mp hany
      have hsome : (doc.sections.find? (fun e => e.1 == a)).isSome := by
        rw [List.find?_isSome]
        exact ⟨e0, he0mem, he0p⟩
      obtain ⟨e1, he1⟩ := Option.isSome_iff_exists.mp hsome
      rw [he1]
      have he1p0 := List.find?_some he1
      have he1p : (e1.1 == a) = true := he1p0
      simp only [Option.map_some']
      rw [if_pos he1p]
      exact find?_setKeyInList e1.2 k v
    · rw [if_neg hany]
      unfold INIDocument.QueryValue
      simp only
      have hnone : doc.sections.find? (fun e => e.1 == a) = none := by
        rw [List.find?_eq_none]
        intro x hx
        simp only [List.any_eq_true] at hany
        push_neg at hany
        simpa using hany x hx
      rw [List.find?_append, hnone]
      simp [List.find?_cons]

theorem QueryValue_DeleteSection (doc : INIDocument) (a q : Str) :
    ((doc.DeleteSection a).1).QueryValue a q = none := by
  unfold INIDocument.DeleteSection
  by_cases hany : doc.sections.any (fun e => e.1 == a)
  · rw [if_pos hany]
    unfold INIDocument.QueryValue
    simp only
    have hfind : (doc.sections.filter (fun e => !(e.1 == a))).find?
        (fun e => e.1 == a) = none := by
      rw [List.find?_eq_none]
      intro x hx
      have hmem := List.of_mem_filter hx
      simp only [Bool.not_eq_true'] at hmem
      simp [hmem]
    rw [hfind]
  · rw [if_neg hany]
    unfold INIDocument.QueryValue
    simp only
    have hfind : doc.sections.find? (fun e => e.1 == a) = none := by
      rw [List.find?_eq_none]
      intro x hx
      simp only [List.any_eq_true] at hany
      push_neg at hany
      simpa using hany x hx
    rw [hfind]

theorem QueryValue_DeleteKey_self (doc : INIDocument) (a k : Str) :
    ((doc.DeleteKey a k).1).QueryValue a k = none := by
  unfold INIDocument.DeleteKey
  by_cases hsome : (doc.QueryValue a k).isSome
  · rw [if_pos hsome]
    unfold INIDocument.QueryValue
    simp only
    rw [find?_map_fst_preserved _ _ (fun x => by by_cases hx : x.1 = a <;> simp [hx]) a]
    cases hfind : doc.sections.find? (fun e => e.1 == a) with
    | none => simp
    | some e1 =>
      have he1p0 := List.find?_some hfind
      have he1p : (e1.1 == a) = true := he1p0
      simp only [Option.map_some']
      rw [if_pos he1p]
      rw [find?_filter_self e1.2 k]
      simp
  · rw [if_neg hsome]
    exact Option.not_isSome_iff_eq_none.mp hsome

theorem QueryValue_DeleteKey_other (doc : INIDocument) (a k k' : Str)
    (hne : k' ≠ k) :
    ((doc.DeleteKey a k).1).QueryValue a k' = doc.QueryValue a k' := by
  unfold INIDocument.DeleteKey
  by_cases hsome : (doc.QueryValue a k).isSome
  · rw [if_pos hsome]
    unfold INIDocument.QueryValue
    simp only
    rw [find?_map_fst_preserved _ _ (fun x => by by_cases hx : x.1 = a <;> simp [hx]) a]
    cases hfind : doc.sections.find? (fun e => e.1 == a) with
    | none => simp
    | some e1 =>
      have he1p0 := List.find?_some hfind
      have he1p : (e1.1 == a) = true := he1p0
      simp only [Option.map_some']
      rw [if_pos he1p]
      rw [find?_filter_other e1.2 k k' hne]
  · rw [if_neg hsome]

theorem OnWrite_ini (sOW : Bool) (o : ConfigObject) :
    ((ConfigObject.OnWrite sOW o).1).ini = o.ini := by
  unfold ConfigObject.OnWrite
  cases sOW <;> simp

theorem WriteStringToMemoryFile_deleteSection_ini (sOW : Bool) (a f : Str)
    (v : Option Str) (o : ConfigObject) :
    (WriteStringToMemoryFile sOW (some a) none v (some f) o).obj.ini =
      (o.ini.DeleteSection a).1 := by
  simp only [WriteStringToMemoryFile, Option.isNone_some, Bool.false_eq_true,
    if_false]
  split <;> simp [OnWrite_ini]

theorem WriteStringToMemoryFile_deleteKey_ini (sOW : Bool) (a k f : Str)
    (o : ConfigObject) :
    (WriteStringToMemoryFile sOW (some a) (some k) none (some f) o).obj.ini =
      (o.ini.DeleteKey a k).1 := by
  simp only [WriteStringToMemoryFile, Option.isNone_some, Bool.false_eq_true,
    if_false]
  split <;> simp [OnWrite_ini]

theorem WriteStringToMemoryFile_setValue_ini (sOW : Bool) (a k v f : Str)
    (o : ConfigObject) :
    (WriteStringToMemoryFile sOW (some a) (some k) (some v) (some f) o).obj.ini =
      (o.ini.SetValue a k v).1 := by
  simp only [WriteStringToMemoryFile, Option.isNone_some, Bool.false_eq_true,
    if_false]
  split <;> simp [OnWrite_ini]

/-- C4: `WriteString` dispatches on argument nullability — a null key deletes
the entire named section (no key of it survives), a present key with a null
value string deletes exactly that key while sibling keys keep their values,
and with both present `(section, key)` is set to the value; the handler
returns a success boolean (`true` for a set, existence of the deleted entity
for the deletes). -/
theorem WriteStringT_nullability_dispatch (a k k' v f : Str) (sOW : Bool)
    (o : ConfigObject) (hne : k' ≠ k) :
    (∀ s : Option Str, ∀ q : Str,
      (WriteStringToMemoryFile sOW (some a) none s (some f) o).obj.ini.QueryValue
        a q = none) ∧
    (WriteStringToMemoryFile sOW (some a) (some k) none (some f) o).obj.ini.QueryValue
      a k = none ∧
    (WriteStringToMemoryFile sOW (some a) (some k) none (some f) o).obj.ini.QueryValue
      a k' = o.ini.QueryValue a k' ∧
    (WriteStringToMemoryFile sOW (some a) (some k) (some v) (some f) o).obj.ini.QueryValue
      a k = some v ∧
    (WriteStringToMemoryFile sOW (some a) (some k) (some v) (some f) o).success =
      true ∧
    (WriteStringToMemoryFile sOW (some a) (some k) none (some f) o).success =
      (o.ini.QueryValue a k).isSome := by
  refine ⟨?_, ?_, ?_, ?_, ?_, ?_⟩
  · intro s q
    rw [WriteStringToMemoryFile_deleteSection_ini]
    exact QueryValue_DeleteSection o.ini a q
  · rw [WriteStringToMemoryFile_deleteKey_ini]
    exact QueryValue_DeleteKey_self o.ini a k
  · rw [WriteStringToMemoryFile_deleteKey_ini]
    exact QueryValue_DeleteKey_other o.ini a k k' hne
  · rw [WriteStringToMemoryFile_setValue_ini]
    exact QueryValue_SetValue_self o.ini a k v
  · simp only [WriteStringToMemoryFile, Option.isNone_some, Bool.false_eq_true,
      if_false]
    split <;> rfl
  · simp only [WriteStringToMemoryFile, Option.isNone_some, Bool.false_eq_true,
      if_false, INIDocument.DeleteKey]
    by_cases hsome : (o.ini.QueryValue a k).isSome
    · rw [if_pos hsome]
      simp [hsome]
    · rw [if_neg hsome]
      simp only [Bool.false_eq_true, if_false]
      simp [Option.not_isSome_iff_eq_none.mp hsome]

/-- Witness for C4: deleting key `[2]` from a two-key section removes it,
keeps the sibling `[4]`, and reports success. -/
theorem WriteStringT_nullability_dispatch_witness :
    (WriteStringToMemoryFile false (some [1]) (some [2]) none (some [3])
        { ini := { sections := [([1], [([2], [7]), ([4], [8])])] },
          isChanged := false, existOnDisk := true }).obj.ini.QueryValue [1] [4] =
      INIDocument.QueryValue
        { sections := [([1], [([2], [7]), ([4], [8])])] } [1] [4] :=
  (WriteStringT_nullability_dispatch [1] [2] [4] [9] [3] false
      { ini := { sections := [([1], [([2], [7]), ([4], [8])])] },
        isChanged := false, existOnDisk := true }
      (by decide)).2.2.1

/-- C5: a `WriteString` that assigns the value already stored for
`(section, key)` is a no-op on the cache entry's persistent state — the
document reports `isSameData`, `OnWrite` is skipped, so the dirty flag is
untouched, no save is triggered, the entry (document and flags) is returned
unchanged, and the handler still reports success. -/
theorem WriteString_same_value_noop (a k v f : Str) (sOW : Bool)
    (o : ConfigObject) (hsame : o.ini.QueryValue a k = some v) :
    WriteStringToMemoryFile sOW (some a) (some k) (some v) (some f) o =
      { obj := o, success := true, saveTriggered := false, lastError := none } := by
  simp only [WriteStringToMemoryFile, Option.isNone_some, Bool.false_eq_true,
    if_false, INIDocument.SetValue]
  rw [if_pos hsame]
  simp

/-- Witness for C5: rewriting the stored value `[7]` leaves the dirty entry
exactly as it was and reports success without a save. -/
theorem WriteString_same_value_noop_witness :
    WriteStringToMemoryFile true (some [1]) (some [2]) (some [7]) (some [3])
        { ini := { sections := [([1], [([2], [7])])] },
          isChanged := false, existOnDisk := true } =
      { obj := { ini := { sections := [([1], [([2], [7])])] },
                 isChanged := false, existOnDisk := true },
        success := true, saveTriggered := false, lastError := none } :=
  WriteString_same_value_noop [1] [2] [7] [3] true
    { ini := { sections := [([1], [([2], [7])])] },
      isChanged := false, existOnDisk := true } (by decide)

/-- C7: with the `NativeWrite` option enabled, `WriteStringT` performs the
in-memory update and then additionally invokes the original un-redirected
API with the same four arguments, returning the native call's outcome; with
the option disabled no native call is made and the result is the in-memory
update's outcome.  In both cases the cache entry afterwards is the one the
in-memory update produced. -/
theorem WriteStringT_native_passthrough (sOW nW : Bool)
    (native : Option Str → Option Str → Option Str → Option Str → Bool)
    (appName keyName lpString fileName : Option Str) (o : ConfigObject) :
    (WriteStringT { saveOnWrite := sOW, nativeWrite := nW } native
        appName keyName lpString fileName o).obj =
      (WriteStringToMemoryFile sOW appName keyName lpString fileName o).obj ∧
    (nW = true →
      (WriteStringT { saveOnWrite := sOW, nativeWrite := nW } native
          appName keyName lpString fileName o).result =
        native appName keyName lpString fileName ∧
      (WriteStringT { saveOnWrite := sOW, nativeWrite := nW } native
          appName keyName lpString fileName o).nativeCalled =
        some (appName, keyName, lpString, fileName)) ∧
    (nW = false →
      (WriteStringT { saveOnWrite := sOW, nativeWrite := nW } native
          appName keyName lpString fileName o).result =
        (WriteStringToMemoryFile sOW appName keyName lpString fileName o).success ∧
      (WriteStringT { saveOnWrite := sOW, nativeWrite := nW } native
          appName keyName lpString fileName o).nativeCalled = none) := by
  cases nW <;> simp [WriteStringT]

/-- Witness for C7: with passthrough enabled and a native stub returning
`false`, the handler reports the native outcome even though the in-memory
write succeeded. -/
theorem WriteStringT_native_passthrough_witness :
    (WriteStringT { saveOnWrite := false, nativeWrite := true }
        (fun _ _ _ _ => false) (some [1]) (some [2]) (some [7]) (some [3])
        { ini := { sections := [] }, isChanged := false,
          existOnDisk := false }).result = (fun _ _ _ _ => false)
      (some ([1] : Str)) (some ([2] : Str)) (some ([7] : Str)) (some ([3] : Str)) :=
  ((WriteStringT_native_passthrough false true (fun _ _ _ _ => false)
      (some [1]) (some [2]) (some [7]) (some [3])
      { ini := { sections := [] }, isChanged := false,
        existOnDisk := false }).2.1 rfl).1

theorem GetStringT_found_fits (a k v f : Str) (dv : Option Str)
    (b : List Nat) (ini : INIDocument)
    (hfound : ini.QueryValue a k = some v) (hcap : 2 ≤ b.length)
    (hlt : v.length < b.length) :
    GetStringT (some a) (some k) dv (some b) (some f) ini =
      { ret := v.length,
        buffer := some (v ++ List.replicate (b.length - v.length) 0),
        lastError := none } := by
  have hnot2 : ¬ b.length < 2 := by omega
  simp only [GetStringT, hfound, Option.isNone_some]
  by_cases hv0 : v.length = 0
  · have hmin : min b.length v.length = 0 := by omega
    have hv : v = [] := List.length_eq_zero.mp hv0
    rw [StringCopyBuffer_zero b v hmin]
    simp [hnot2, hv]
  · rw [StringCopyBuffer_room b v (by omega) hlt]
    simp [hnot2]

/-- C3: a successful `WriteString` of `(section, key, value, path)` with all
three of section, key and value present, followed by a `ReadString` of the
same `(section, key, path)` into a buffer large enough for the value,
returns exactly the written value, null-terminated (write/read round trip
through the cache; both calls work on the one canonical text
representation, the width conversion at the boundary being total). -/
theorem WriteString_ReadString_roundtrip (a k v f : Str) (dv : Option Str)
    (sOW nW : Bool)
    (native : Option Str → Option Str → Option Str → Option Str → Bool)
    (o : ConfigObject) (b : List Nat)
    (hcap : 2 ≤ b.length) (hbig : v.length < b.length) :
    (nW = false →
      (WriteStringT { saveOnWrite := sOW, nativeWrite := nW } native
          (some a) (some k) (some v) (some f) o).result = true) ∧
    GetStringT (some a) (some k) dv (some b) (some f)
        (WriteStringT { saveOnWrite := sOW, nativeWrite := nW } native
          (some a) (some k) (some v) (some f) o).obj.ini =
      { ret := v.length,
        buffer := some (v ++ List.replicate (b.length - v.length) 0),
        lastError := none } := by
  have hobj : (WriteStringT { saveOnWrite := sOW, nativeWrite := nW } native
      (some a) (some k) (some v) (some f) o).obj =
      (WriteStringToMemoryFile sOW (some a) (some k) (some v) (some f) o).obj := by
    cases nW <;> simp [WriteStringT]
  constructor
  · intro hnW
    subst hnW
    simp only [WriteStringT, Bool.false_eq_true, if_false]
    simp only [WriteStringToMemoryFile, Option.isNone_some, Bool.false_eq_true,
      if_false]
    split <;> rfl
  · rw [hobj, WriteStringToMemoryFile_setValue_ini]
    exact GetStringT_found_fits a k v f dv b _
      (QueryValue_SetValue_self o.ini a k v) hcap hbig

/-- Witness for C3: writing `[7]` into an empty cache and reading it back
through a capacity-3 buffer returns `[7]` null-terminated. -/
theorem WriteString_ReadString_roundtrip_witness :
    GetStringT (some [1]) (some [2]) none (some [9, 9, 9]) (some [3])
        (WriteStringT { saveOnWrite := false, nativeWrite := false }
          (fun _ _ _ _ => true) (some [1]) (some [2]) (some [7]) (some [3])
          { ini := { sections := [] }, isChanged := false,
            existOnDisk := false }).obj.ini =
      { ret := 1, buffer := some ([7] ++ List.replicate 2 0),
        lastError := none } :=
  (WriteString_ReadString_roundtrip [1] [2] [7] [3] none false false
      (fun _ _ _ _ => true)
      { ini := { sections := [] }, isChanged := false, existOnDisk := false }
      [9, 9, 9] (by decide) (by decide)).2

theorem encodeZZ_cons (i : Str) (l : List Str) :
    encodeZZ (i :: l) = (i ++ [0]) ++ encodeZZ l := by
  simp [encodeZZ, List.map_cons, List.flatten_cons, List.append_assoc]

theorem encodeZZ_nil : encodeZZ [] = [0] := by
  simp [encodeZZ]

theorem getD_append_last_zero (l : List Nat) :
    (l ++ [0]).getD ((l ++ [0]).length - 1) 0 = 0 := by
  induction l with
  | nil => rfl
  | cons a l ih =>
    have hlen : (l ++ [0]).length = l.length + 1 := by simp
    simp only [List.cons_append, List.length_cons, Nat.add_sub_cancel]
    rw [hlen, List.getD_cons_succ]
    rw [hlen, Nat.add_sub_cancel] at ih
    exact ih

theorem buildZZ_shape (items : List Str) (max : Nat) :
    ∀ (acc : Str) (cnt : Nat), ∃ j, j ≤ items.length ∧
      (buildZZ items max acc cnt).1 = acc ++ encodeZZ (items.take j) ∧
      (buildZZ items max acc cnt).2.1 = decide (j < items.length) ∧
      (buildZZ items max acc cnt).2.2 = cnt + j ∧
      (j < items.length →
        acc.length + (encodeZZ (items.take j)).length +
          (items.getD j []).length + 1 > max) := by
  induction items with
  | nil =>
    intro acc cnt
    refine ⟨0, Nat.le_refl 0, ?_, ?_, ?_, ?_⟩
    · simp [buildZZ, encodeZZ_nil]
    · simp [buildZZ]
    · simp [buildZZ]
    · intro h
      simp at h
  | cons i rest ih =>
    intro acc cnt
    by_cases h : acc.length + i.length + 2 ≤ max
    · obtain ⟨j', hj'le, h1, h2, h3, h4⟩ := ih (acc ++ (i ++ [0])) (cnt + 1)
      have hstep : buildZZ (i :: rest) max acc cnt =
          buildZZ rest max (acc ++ (i ++ [0])) (cnt + 1) := by
        simp only [buildZZ]
        rw [if_pos h]
      refine ⟨j' + 1, by simp; omega, ?_, ?_, ?_, ?_⟩
      · rw [hstep, h1, List.take_succ_cons, encodeZZ_cons, List.append_assoc]
      · rw [hstep, h2]
        simp only [List.length_cons]
        congr 1
        simp [Nat.succ_lt_succ_iff]
      · rw [hstep, h3]
        omega
      · intro hj
        simp only [List.length_cons, Nat.succ_lt_succ_iff] at hj
        have := h4 hj
        simp only [List.take_succ_cons, encodeZZ_cons, List.length_append,
          List.length_cons, List.length_singleton,
          List.getD_cons_succ] at this ⊢
        omega
    · have hstep : buildZZ (i :: rest) max acc cnt = (acc ++ [0], true, cnt) := by
        simp only [buildZZ]
        rw [if_neg h]
      refine ⟨0, Nat.zero_le _, ?_, ?_, ?_, ?_⟩
      · rw [hstep]
        simp [encodeZZ_nil]
      · rw [hstep]
        simp
      · rw [hstep]
        simp
      · intro _
        simp only [List.take_zero, encodeZZ_nil, List.length_singleton,
          List.getD_cons_zero]
        omega

theorem buildZZ_length_le (items : List Str) (max : Nat) :
    ∀ (acc : Str) (cnt : Nat), acc.length + 1 ≤ max →
      (buildZZ items max acc cnt).1.length ≤ max := by
  induction items with
  | nil =>
    intro acc cnt h
    simp only [buildZZ, List.length_append, List.length_singleton]
    omega
  | cons i rest ih =>
    intro acc cnt h
    by_cases hfit : acc.length + i.length + 2 ≤ max
    · have hstep : buildZZ (i :: rest) max acc cnt =
          buildZZ rest max (acc ++ (i ++ [0])) (cnt + 1) := by
        simp only [buildZZ]
        rw [if_pos hfit]
      rw [hstep]
      apply ih
      simp only [List.length_append, List.length_singleton]
      omega
    · have hstep : buildZZ (i :: rest) max acc cnt = (acc ++ [0], true, cnt) := by
        simp only [buildZZ]
        rw [if_neg hfit]
      rw [hstep]
      simp only [List.length_append, List.length_singleton]
      omega

theorem StringCopyBuffer_fits_terminated (d s : List Nat)
    (h0 : 0 < s.length) (hle : s.length ≤ d.length)
    (hlast : s.getD (s.length - 1) 0 = 0) :
    StringCopyBuffer (some d) (some s) =
      { dst := s ++ List.replicate (d.length - s.length) 0,
        copied := s.length, hr := .sOk } := by
  by_cases hlt : s.length < d.length
  · exact StringCopyBuffer_room d s h0 hlt
  · have heq : d.length = s.length := by omega
    rw [StringCopyBuffer_exactFit d s h0 heq hlast]
    have hz : d.length - s.length = 0 := by omega
    rw [hz, List.replicate_zero, List.append_nil]

theorem CreateZSSTRZZ_truncated (items : List Str) (max : Nat)
    (hmax : 1 ≤ max) (hover : max < (encodeZZ items).length) :
    (CreateZSSTRZZ items max).2.1 = true ∧
    (CreateZSSTRZZ items max).2.2 < items.length ∧
    (CreateZSSTRZZ items max).1 =
      encodeZZ (items.take (CreateZSSTRZZ items max).2.2) ∧
    max < (CreateZSSTRZZ items max).1.length +
      (items.getD (CreateZSSTRZZ items max).2.2 []).length + 1 ∧
    (CreateZSSTRZZ items max).1.length ≤ max ∧
    0 < (CreateZSSTRZZ items max).1.length ∧
    (CreateZSSTRZZ items max).1.getD
      ((CreateZSSTRZZ items max).1.length - 1) 0 = 0 := by
  obtain ⟨j, hjle, h1, h2, h3, h4⟩ := buildZZ_shape items max [] 0
  have h1' : (CreateZSSTRZZ items max).1 = encodeZZ (items.take j) := by
    rw [CreateZSSTRZZ, h1]
    simp
  have h3' : (CreateZSSTRZZ items max).2.2 = j := by
    rw [CreateZSSTRZZ, h3]
    omega
  have hlen : (CreateZSSTRZZ items max).1.length ≤ max :=
    buildZZ_length_le items max [] 0 (by simp; omega)
  have hjlt : j < items.length := by
    by_contra hge
    have hj : j = items.length := by omega
    rw [hj, List.take_length items] at h1'
    rw [h1'] at hlen
    omega
  have hof := h4 hjlt
  simp only [List.length_nil, Nat.zero_add] at hof
  have hpos : 0 < (CreateZSSTRZZ items max).1.length := by
    rw [h1', encodeZZ]
    simp
  refine ⟨?_, ?_, ?_, ?_, hlen, hpos, ?_⟩
  · rw [CreateZSSTRZZ, h2]
    simp [hjlt]
  · rw [h3']
    exact hjlt
  · rw [h1', h3']
  · rw [h1', h3']
    omega
  · rw [h1', encodeZZ]
    exact getD_append_last_zero _

/-- C8: enumerating section names (null section argument) or key names (null
key argument) into a destination too small for all items stops before the
first item that would overflow, sets the truncated flag, produces a list
that is still valid double-null-terminated text made of whole items only,
and makes the handler return the truncation-adjusted length `nSize - 2`
instead of the full list length minus one. -/
theorem GetStringT_enumeration_truncated (a f : Str) (dv kOpt : Option Str)
    (b : List Nat) (ini : INIDocument) (hcap : 2 ≤ b.length) :
    (b.length < (encodeZZ ini.GetSectionNames).length →
      (CreateZSSTRZZ ini.GetSectionNames b.length).2.1 = true ∧
      (CreateZSSTRZZ ini.GetSectionNames b.length).2.2 <
        ini.GetSectionNames.length ∧
      (CreateZSSTRZZ ini.GetSectionNames b.length).1 =
        encodeZZ (ini.GetSectionNames.take
          (CreateZSSTRZZ ini.GetSectionNames b.length).2.2) ∧
      b.length < (CreateZSSTRZZ ini.GetSectionNames b.length).1.length +
        (ini.GetSectionNames.getD
          (CreateZSSTRZZ ini.GetSectionNames b.length).2.2 []).length + 1 ∧
      GetStringT none kOpt dv (some b) (some f) ini =
        { ret := b.length - 2,
          buffer := some ((CreateZSSTRZZ ini.GetSectionNames b.length).1 ++
            List.replicate
              (b.length - (CreateZSSTRZZ ini.GetSectionNames b.length).1.length) 0),
          lastError := none }) ∧
    (b.length < (encodeZZ (ini.GetKeyNames a)).length →
      (CreateZSSTRZZ (ini.GetKeyNames a) b.length).2.1 = true ∧
      (CreateZSSTRZZ (ini.GetKeyNames a) b.length).2.2 <
        (ini.GetKeyNames a).length ∧
      (CreateZSSTRZZ (ini.GetKeyNames a) b.length).1 =
        encodeZZ ((ini.GetKeyNames a).take
          (CreateZSSTRZZ (ini.GetKeyNames a) b.length).2.2) ∧
      b.length < (CreateZSSTRZZ (ini.GetKeyNames a) b.length).1.length +
        ((ini.GetKeyNames a).getD
          (CreateZSSTRZZ (ini.GetKeyNames a) b.length).2.2 []).length + 1 ∧
      GetStringT (some a) none dv (some b) (some f) ini =
        { ret := b.length - 2,
          buffer := some ((CreateZSSTRZZ (ini.GetKeyNames a) b.length).1 ++
            List.replicate
              (b.length - (CreateZSSTRZZ (ini.GetKeyNames a) b.length).1.length) 0),
          lastError := none }) := by
  have hnot2 : ¬ b.length < 2 := by omega
  constructor
  · intro hover
    obtain ⟨htr, hlt, hshape, hof, hlen, hpos, hlast⟩ :=
      CreateZSSTRZZ_truncated ini.GetSectionNames b.length (by omega) hover
    refine ⟨htr, hlt, hshape, hof, ?_⟩
    simp only [GetStringT, Option.isNone_some]
    rw [StringCopyBuffer_fits_terminated b _ hpos hlen hlast]
    simp [hnot2, htr]
  · intro hover
    obtain ⟨htr, hlt, hshape, hof, hlen, hpos, hlast⟩ :=
      CreateZSSTRZZ_truncated (ini.GetKeyNames a) b.length (by omega) hover
    refine ⟨htr, hlt, hshape, hof, ?_⟩
    simp only [GetStringT, Option.isNone_some]
    rw [StringCopyBuffer_fits_terminated b _ hpos hlen hlast]
    simp [hnot2, htr]

/-- Witness for C8: two sections `[5,6]` and `[7,8]` through a capacity-6
buffer keep only the first whole item and return `6 - 2 = 4`. -/
theorem GetStringT_enumeration_truncated_witness :
    GetStringT none none none (some [9, 9, 9, 9, 9, 9]) (some [3])
        { sections := [([5, 6], []), ([7, 8], [])] } =
      { ret := 4,
        buffer := some
          ((CreateZSSTRZZ
              (INIDocument.GetSectionNames
                { sections := [([5, 6], []), ([7, 8], [])] }) 6).1 ++
            List.replicate
              (6 - (CreateZSSTRZZ
                (INIDocument.GetSectionNames
                  { sections := [([5, 6], []), ([7, 8], [])] }) 6).1.length) 0),
        lastError := none } :=
  ((GetStringT_enumeration_truncated [0] [3] none none [9, 9, 9, 9, 9, 9]
      { sections := [([5, 6], []), ([7, 8], [])] } (by decide)).1
    (by decide)).2.2.2.2
